import Mathlib

/-!
Verification of the thermal-printer core of the Therma-Snaps photobooth
(src/src/App.js, class ThermalPrinter).

Shallow embedding conventions:
* JavaScript numbers are modelled by `Nat` (byte values, indices, dimensions)
  and exact rationals `ℚ` (the dithering arithmetic that the code performs in
  IEEE doubles stored into a Float32Array).  The dithering model is therefore
  exact where the code rounds; every concrete evaluation used below keeps wide
  margins around the comparison thresholds so the modelled comparisons agree
  with the floating-point ones.
* `height & 0xff` and `(height >> 8) & 0xff` in JS first convert to a 32-bit
  integer.  Because 256 and 65536 divide 2^32, the produced bytes equal
  `height % 256` and `height / 256 % 256` for every natural `height`; the
  model uses those expressions directly.
* The flat `Uint8ClampedArray` / `Float32Array` image buffers are modelled as
  total functions `ℕ → ℕ` / `ℕ → ℚ` from flat index to stored value, with the
  RGBA layout index `(y * width + x) * 4 + channel` of the source.
-/

namespace ThermaSnaps

/-- Chunk size of the primary `printImage` transport loop
(`const chunkSize = 512`, src/src/App.js line 67). -/
def chunkSize : ℕ := 512

/-- Fuel-indexed form of the chunking loop of the primary `printImage`
(src/src/App.js lines 68-71): `for (let i = 0; i < thermalData.length; i += chunkSize)`
with `chunk = thermalData.slice(i, i + chunkSize)`.  One iteration emits the
next at-most-512-byte slice of the remaining data; the loop runs at most
`thermalData.length` times, which bounds the fuel. -/
def toChunksGo : ℕ → List ℕ → List (List ℕ)
  | 0, _ => []
  | fuel + 1, data =>
    if data = [] then []
    else data.take chunkSize :: toChunksGo fuel (data.drop chunkSize)

/-- Transport chunking of the primary `printImage` loop: the list of chunk
payloads written to the GATT characteristic, in write order. -/
def toChunks (data : List ℕ) : List (List ℕ) :=
  toChunksGo data.length data

theorem toChunksGo_congr (fuel₁ fuel₂ : ℕ) (data : List ℕ)
    (h₁ : data.length ≤ fuel₁) (h₂ : data.length ≤ fuel₂) :
    toChunksGo fuel₁ data = toChunksGo fuel₂ data := by
  induction fuel₁ generalizing fuel₂ data with
  | zero =>
    have : data = [] := List.length_eq_zero.mp (Nat.le_zero.mp h₁)
    subst this
    cases fuel₂ <;> simp [toChunksGo]
  | succ fuel ih =>
    cases fuel₂ with
    | zero =>
      have : data = [] := List.length_eq_zero.mp (Nat.le_zero.mp h₂)
      subst this
      simp [toChunksGo]
    | succ fuel₂ =>
      by_cases hd : data = []
      · simp [toChunksGo, hd]
      · have hlen : 0 < data.length := List.length_pos.mpr hd
        simp only [toChunksGo, if_neg hd]
        have hdrop : (data.drop chunkSize).length ≤ fuel := by
          simp only [List.length_drop, chunkSize]
          omega
        have hdrop₂ : (data.drop chunkSize).length ≤ fuel₂ := by
          simp only [List.length_drop, chunkSize]
          omega
        rw [ih fuel₂ (data.drop chunkSize) hdrop hdrop₂]

theorem toChunks_nil : toChunks [] = [] := by
  simp [toChunks, toChunksGo]

theorem toChunks_cons (data : List ℕ) (h : data ≠ []) :
    toChunks data = data.take chunkSize :: toChunks (data.drop chunkSize) := by
  have hlen : 0 < data.length := List.length_pos.mpr h
  obtain ⟨n, hn⟩ : ∃ n, data.length = n + 1 := ⟨data.length - 1, by omega⟩
  simp only [toChunks, hn, toChunksGo, if_neg h]
  congr 1
  apply toChunksGo_congr
  · simp only [List.length_drop, chunkSize]
    omega
  · exact le_rfl

theorem toChunks_flatten_aux (fuel : ℕ) (data : List ℕ)
    (hfuel : data.length ≤ fuel) : (toChunks data).flatten = data := by
  induction fuel generalizing data with
  | zero =>
    have : data = [] := List.length_eq_zero.mp (Nat.le_zero.mp hfuel)
    simp [this, toChunks_nil]
  | succ fuel ih =>
    by_cases h : data = []
    · simp [h, toChunks_nil]
    · have hlen : 0 < data.length := List.length_pos.mpr h
      rw [toChunks_cons data h]
      have : (data.drop chunkSize).length ≤ fuel := by
        simp only [List.length_drop, chunkSize]
        omega
      simp [ih (data.drop chunkSize) this]

theorem toChunks_mem_length_aux (fuel : ℕ) (data : List ℕ)
    (hfuel : data.length ≤ fuel) (c : List ℕ) (hc : c ∈ toChunks data) :
    c.length ≤ chunkSize := by
  induction fuel generalizing data with
  | zero =>
    have : data = [] := List.length_eq_zero.mp (Nat.le_zero.mp hfuel)
    rw [this, toChunks_nil] at hc
    cases hc
  | succ fuel ih =>
    by_cases h : data = []
    · rw [h, toChunks_nil] at hc
      cases hc
    · have hlen : 0 < data.length := List.length_pos.mpr h
      rw [toChunks_cons data h, List.mem_cons] at hc
      rcases hc with hc | hc
      · subst hc
        simp only [List.length_take]
        omega
      · have : (data.drop chunkSize).length ≤ fuel := by
          simp only [List.length_drop, chunkSize]
          omega
        exact ih (data.drop chunkSize) this hc

theorem toChunks_getElem_aux (fuel : ℕ) (data : List ℕ)
    (hfuel : data.length ≤ fuel) (k : ℕ) (hk : k < (toChunks data).length) :
    (toChunks data)[k] = (data.drop (chunkSize * k)).take chunkSize := by
  induction fuel generalizing data k with
  | zero =>
    have : data = [] := List.length_eq_zero.mp (Nat.le_zero.mp hfuel)
    subst this
    rw [toChunks_nil] at hk
    simp at hk
  | succ fuel ih =>
    by_cases h : data = []
    · subst h
      rw [toChunks_nil] at hk
      simp at hk
    · have hlen : 0 < data.length := List.length_pos.mpr h
      have heq := toChunks_cons data h
      cases k with
      | zero =>
        simp only [Nat.mul_zero, List.drop_zero]
        rw [List.getElem_of_eq heq]
        simp
      | succ k =>
        have hk' : k < (toChunks (data.drop chunkSize)).length := by
          have := List.length_cons (data.take chunkSize) (toChunks (data.drop chunkSize))
          rw [heq] at hk
          simp at hk
          omega
        have hfuel' : (data.drop chunkSize).length ≤ fuel := by
          simp only [List.length_drop, chunkSize]
          omega
        have ihk := ih (data.drop chunkSize) hfuel' k hk'
        rw [List.getElem_of_eq heq]
        simp only [List.getElem_cons_succ, ihk, List.drop_drop]
        congr 2
        ring

/-- C5: For every PrintFrame, the transport session splits it into chunks each
of length at most the fixed chunk size (512), the k-th written chunk is the
frame segment at offset `512 * k` — so offsets ascend strictly with no gaps
and no overlaps — and concatenating all chunks in write order reproduces the
frame byte-for-byte. -/
theorem chunking_partitions_frame (frame : List ℕ) :
    (toChunks frame).flatten = frame ∧
    (∀ c ∈ toChunks frame, c.length ≤ chunkSize) ∧
    (∀ k : ℕ, k < (toChunks frame).length →
      (toChunks frame)[k]! = (frame.drop (chunkSize * k)).take chunkSize) := by
  refine ⟨toChunks_flatten_aux frame.length frame le_rfl,
    fun c hc => toChunks_mem_length_aux frame.length frame le_rfl c hc, ?_⟩
  intro k hk
  rw [getElem!_pos (toChunks frame) k hk]
  exact toChunks_getElem_aux frame.length frame le_rfl k hk

set_option maxRecDepth 8000 in
/-- Witness for C5 at a concrete 1030-byte frame: the chunks flatten back to
the frame and the second chunk is the 512-byte segment at offset 512. -/
theorem chunking_partitions_frame_witness :
    (toChunks (List.replicate 1030 7)).flatten = List.replicate 1030 7 ∧
    (toChunks (List.replicate 1030 7))[1]! =
      ((List.replicate 1030 7).drop 512).take 512 := by
  refine ⟨(chunking_partitions_frame (List.replicate 1030 7)).1, ?_⟩
  have h := (chunking_partitions_frame (List.replicate 1030 7)).2.2 1 (by decide)
  simpa [chunkSize] using h

/-- Row byte-width `Math.ceil(width / 8)` of `convertToESCPOS`
(src/src/App.js line 121); exact for every natural width. -/
def bytesPerLine (width : ℕ) : ℕ := (width + 7) / 8

/-- One packed row byte of `convertToESCPOS` (src/src/App.js lines 130-143):
`for (let b = 0; b < 8; b++) { const pixelX = x * 8 + b; if (pixelX < width) {
const offset = (y * width + pixelX) * 4; if (data[offset] === 0) byte |= (1 << (7 - b)); } }`. -/
def rowByte (width : ℕ) (data : ℕ → ℕ) (y x : ℕ) : ℕ :=
  (List.range 8).foldl
    (fun byte b =>
      if x * 8 + b < width ∧ data ((y * width + (x * 8 + b)) * 4) = 0 then
        byte ||| (1 <<< (7 - b))
      else byte) 0

/-- The row-data section of `convertToESCPOS` (src/src/App.js lines 129-144):
all packed row bytes, rows top to bottom, bytes left to right. -/
def rowData (width height : ℕ) (data : ℕ → ℕ) : List ℕ :=
  (List.range height).flatMap
    (fun y => (List.range (bytesPerLine width)).map (rowByte width data y))

/-- The full ESC/POS byte stream built by `convertToESCPOS`
(src/src/App.js lines 113-148) from an already dithered raster, in push order:
initialize `1B 40`; raster command `1D 76 30 00` with the byte-width and
height 16-bit fields (`& 0xff` and `>> 8 & 0xff` of the JS numbers, i.e.
`% 256` and `/ 256 % 256`); the packed rows; feed `1B 64 02`; partial cut
`1D 56 01`. -/
def escposEncode (width height : ℕ) (data : ℕ → ℕ) : List ℕ :=
  [0x1B, 0x40] ++
  [0x1D, 0x76, 0x30, 0x00] ++
  [bytesPerLine width % 256, bytesPerLine width / 256 % 256,
   height % 256, height / 256 % 256] ++
  rowData width height data ++
  [0x1B, 0x64, 0x02] ++
  [0x1D, 0x56, 0x01]

theorem foldl_orBit_testBit (l : List ℕ) (cond : ℕ → Prop) [DecidablePred cond]
    (init : ℕ) (k : ℕ) :
    (l.foldl (fun byte b => if cond b then byte ||| (1 <<< (7 - b)) else byte)
        init).testBit k
      = (init.testBit k || l.any (fun b => decide (cond b) && decide (7 - b = k))) := by
  induction l generalizing init with
  | nil => simp
  | cons a l ih =>
    simp only [List.foldl_cons, List.any_cons, ih]
    by_cases hc : cond a
    · rw [if_pos hc, Nat.testBit_or, Nat.one_shiftLeft, Nat.testBit_two_pow]
      have hd : decide (cond a) = true := decide_eq_true hc
      rw [hd, Bool.true_and, Bool.or_assoc]
    · have hd : decide (cond a) = false := decide_eq_false hc
      rw [if_neg hc, hd, Bool.false_and, Bool.false_or]

theorem foldl_orBit_lt (l : List ℕ) (cond : ℕ → Prop) [DecidablePred cond]
    (init : ℕ) (h : init < 256) :
    l.foldl (fun byte b => if cond b then byte ||| (1 <<< (7 - b)) else byte)
      init < 256 := by
  induction l generalizing init with
  | nil => simpa
  | cons a l ih =>
    simp only [List.foldl_cons]
    apply ih
    by_cases hc : cond a
    · simp only [if_pos hc, Nat.one_shiftLeft]
      have h2 : (2 : ℕ) ^ (7 - a) < 2 ^ 8 :=
        Nat.pow_lt_pow_right one_lt_two (by omega)
      have h1 : init < 2 ^ 8 := by norm_num at h ⊢; exact h
      have := Nat.or_lt_two_pow h1 h2
      norm_num at this ⊢
      exact this
    · simpa [if_neg hc]

/-- Every packed row byte fits in one byte. -/
theorem rowByte_lt (width : ℕ) (data : ℕ → ℕ) (y x : ℕ) :
    rowByte width data y x < 256 :=
  foldl_orBit_lt _ _ 0 (by norm_num)

/-- Bit `7 - b` of the packed byte is set exactly when pixel `x * 8 + b` is
inside the row and its dithered red channel is 0 (print black). -/
theorem rowByte_testBit (width : ℕ) (data : ℕ → ℕ) (y x b : ℕ) (hb : b < 8) :
    (rowByte width data y x).testBit (7 - b)
      = decide (x * 8 + b < width ∧ data ((y * width + (x * 8 + b)) * 4) = 0) := by
  rw [rowByte, foldl_orBit_testBit]
  simp only [Nat.zero_testBit, Bool.false_or]
  interval_cases b <;> simp [List.range_succ]

/-- Bits at positions 8 and above of a packed row byte are clear. -/
theorem rowByte_testBit_high (width : ℕ) (data : ℕ → ℕ) (y x k : ℕ)
    (hk : 8 ≤ k) : (rowByte width data y x).testBit k = false := by
  apply Nat.testBit_lt_two_pow
  calc rowByte width data y x < 256 := rowByte_lt width data y x
    _ ≤ 2 ^ k := by
        calc (256 : ℕ) = 2 ^ 8 := by norm_num
          _ ≤ 2 ^ k := Nat.pow_le_pow_right (by norm_num) hk

/-- The row-data section holds exactly `bytesPerLine width * height` bytes. -/
theorem rowData_length (width height : ℕ) (data : ℕ → ℕ) :
    (rowData width height data).length = bytesPerLine width * height := by
  simp only [rowData, List.length_flatMap]
  have h : List.map
      (List.length ∘ fun y => List.map (rowByte width data y)
        (List.range (bytesPerLine width))) (List.range height)
      = List.replicate height (bytesPerLine width) := by
    simp [Function.comp_def, List.length_map, List.length_range, List.map_const']
  rw [h, List.sum_replicate, smul_eq_mul, Nat.mul_comm]

/-- C3: bit-packing of rows, MSB first.  (i) For every raster and every bit
position `b < 8` of row byte `x` of row `y`, bit `7 - b` is set exactly when
pixel `x * 8 + b` lies inside the image width and is print-black (dithered
value 0); so bits of pixel positions at or beyond the width are 0 and the
leftmost pixel is the most significant bit.  (ii) A packed byte has no bits
above position 7.  (iii) For a 384-wide solid-black raster every row byte of
the first 500 rows equals 0xFF. -/
theorem row_packing_msb_first :
    (∀ (width : ℕ) (data : ℕ → ℕ) (y x b : ℕ), b < 8 →
      ((rowByte width data y x).testBit (7 - b) = true ↔
        x * 8 + b < width ∧ data ((y * width + (x * 8 + b)) * 4) = 0)) ∧
    (∀ (width : ℕ) (data : ℕ → ℕ) (y x k : ℕ), 8 ≤ k →
      (rowByte width data y x).testBit k = false) ∧
    (∀ y x : ℕ, y < 500 → x < 48 → rowByte 384 (fun _ => 0) y x = 255) := by
  refine ⟨?_, rowByte_testBit_high, ?_⟩
  · intro width data y x b hb
    rw [rowByte_testBit width data y x b hb]
    simp
  · intro y x _ hx
    apply Nat.eq_of_testBit_eq
    intro k
    by_cases hk : k < 8
    · have hb : 7 - k < 8 := by omega
      have h7 : 7 - (7 - k) = k := by omega
      have := rowByte_testBit 384 (fun _ => 0) y x (7 - k) hb
      rw [h7] at this
      rw [this]
      have hcond : x * 8 + (7 - k) < 384 := by omega
      simp only [hcond, true_and, decide_eq_true_eq]
      have h255 : (255 : ℕ).testBit k = true := by
        interval_cases k <;> decide
      rw [h255]
      simp
    · rw [rowByte_testBit_high 384 (fun _ => 0) y x k (by omega)]
      have : (255 : ℕ) < 2 ^ k := by
        calc (255 : ℕ) < 2 ^ 8 := by norm_num
          _ ≤ 2 ^ k := Nat.pow_le_pow_right (by norm_num) (by omega)
      rw [Nat.testBit_lt_two_pow this]

/-- Witness for C3 at concrete inputs: on a 2-pixel-wide raster whose pixel 0
is black and pixel 1 is white, bit 7 of row byte 0 is set and bit 6 is not;
and a row byte of the 384-wide solid black raster equals 0xFF. -/
theorem row_packing_msb_first_witness :
    (rowByte 2 (fun i => if i = 0 then 0 else 255) 0 0).testBit 7 = true ∧
    ¬ (rowByte 2 (fun i => if i = 0 then 0 else 255) 0 0).testBit 6 = true ∧
    rowByte 384 (fun _ => 0) 0 0 = 255 := by
  refine ⟨?_, ?_, row_packing_msb_first.2.2 0 0 (by decide) (by decide)⟩
  · have h := (row_packing_msb_first.1 2 (fun i => if i = 0 then 0 else 255) 0 0 0
      (by decide))
    simp only [show 7 - 0 = 7 by rfl] at h
    exact h.mpr (by decide)
  · have h := (row_packing_msb_first.1 2 (fun i => if i = 0 then 0 else 255) 0 0 1
      (by decide))
    simp only [show 7 - 1 = 6 by rfl] at h
    rw [h]
    decide

/-- Claim C1 exactly as stated: for EVERY mono raster with positive
dimensions the encoder output is the init command, then the raster header with
`ceil(W/8)` and `H` each represented by a little-endian 16-bit byte pair, then
the `ceil(W/8) * H` row bytes, then the trailer, and nothing else. -/
def claimC1 : Prop :=
  ∀ (width height : ℕ) (data : ℕ → ℕ), 0 < width → 0 < height →
    ∃ rbLo rbHi hLo hHi : ℕ,
      rbLo < 256 ∧ rbHi < 256 ∧ hLo < 256 ∧ hHi < 256 ∧
      rbLo + 256 * rbHi = bytesPerLine width ∧ hLo + 256 * hHi = height ∧
      (rowData width height data).length = bytesPerLine width * height ∧
      escposEncode width height data =
        [0x1B, 0x40] ++ [0x1D, 0x76, 0x30, 0x00, rbLo, rbHi, hLo, hHi] ++
        rowData width height data ++ [0x1B, 0x64, 0x02, 0x1D, 0x56, 0x01]

/-- Counterexample to C1 as stated: at the concrete input width 1, height
65536 (positive dimensions), no pair of bytes can represent the height 65536,
so the claimed layout is impossible — the code in fact stores
`65536 % 256 = 0` and `65536 / 256 % 256 = 0`, and claim C1 without a height
bound is false. -/
theorem frame_layout_counterexample : ¬ claimC1 := by
  intro h
  obtain ⟨rbLo, rbHi, hLo, hHi, _, _, h3, h4, _, hh, _⟩ :=
    h 1 65536 (fun _ => 0) one_pos (by norm_num)
  omega

/-- C1 (amended): the stated layout holds for every mono raster with positive
dimensions whose row byte-width and height both fit the device's 16-bit
header fields, i.e. `ceil(W/8) ≤ 65535` and `H ≤ 65535`. -/
theorem frame_layout (width height : ℕ) (data : ℕ → ℕ)
    (_hw : 0 < width) (_hh : 0 < height)
    (hbpl : bytesPerLine width ≤ 65535) (hht : height ≤ 65535) :
    ∃ rbLo rbHi hLo hHi : ℕ,
      rbLo < 256 ∧ rbHi < 256 ∧ hLo < 256 ∧ hHi < 256 ∧
      rbLo + 256 * rbHi = bytesPerLine width ∧ hLo + 256 * hHi = height ∧
      (rowData width height data).length = bytesPerLine width * height ∧
      escposEncode width height data =
        [0x1B, 0x40] ++ [0x1D, 0x76, 0x30, 0x00, rbLo, rbHi, hLo, hHi] ++
        rowData width height data ++ [0x1B, 0x64, 0x02, 0x1D, 0x56, 0x01] := by
  refine ⟨bytesPerLine width % 256, bytesPerLine width / 256 % 256,
    height % 256, height / 256 % 256, by omega, by omega, by omega, by omega,
    by omega, by omega, rowData_length width height data, ?_⟩
  simp [escposEncode]

/-- Witness for C1 (amended) at a concrete 1×1 black raster. -/
theorem frame_layout_witness :
    (0 < 1 ∧ bytesPerLine 1 ≤ 65535) ∧
    (∃ rbLo rbHi hLo hHi : ℕ,
      rbLo < 256 ∧ rbHi < 256 ∧ hLo < 256 ∧ hHi < 256 ∧
      rbLo + 256 * rbHi = bytesPerLine 1 ∧ hLo + 256 * hHi = 1 ∧
      (rowData 1 1 (fun _ => 0)).length = bytesPerLine 1 * 1 ∧
      escposEncode 1 1 (fun _ => 0) =
        [0x1B, 0x40] ++ [0x1D, 0x76, 0x30, 0x00, rbLo, rbHi, hLo, hHi] ++
        rowData 1 1 (fun _ => 0) ++ [0x1B, 0x64, 0x02, 0x1D, 0x56, 0x01]) :=
  ⟨⟨by decide, by decide⟩,
    frame_layout 1 1 (fun _ => 0) (by decide) (by decide) (by decide) (by decide)⟩

/-- C4 evaluated at the failing input (a mono raster of width 1 and height
65536 > 65535): `convertToESCPOS` performs no dimension check and returns a
complete 65552-byte stream — init, header with height bytes 0, 0, the 65536
row bytes, trailer — instead of failing with FrameTooLarge as the spec
requires. -/
theorem no_frame_too_large_check :
    (escposEncode 1 65536 (fun _ => 0)).length = 65552 ∧
    (escposEncode 1 65536 (fun _ => 0)).take 10 =
      [0x1B, 0x40, 0x1D, 0x76, 0x30, 0x00, 1, 0, 0, 0] := by
  have hlen : (rowData 1 65536 (fun _ => 0)).length = 65536 := by
    rw [rowData_length]
    norm_num [bytesPerLine]
  have hform : escposEncode 1 65536 (fun _ => 0) =
      [0x1B, 0x40, 0x1D, 0x76, 0x30, 0x00, 1, 0, 0, 0] ++
      (rowData 1 65536 (fun _ => 0) ++ [0x1B, 0x64, 0x02, 0x1D, 0x56, 0x01]) := by
    simp [escposEncode]
    norm_num [bytesPerLine]
  refine ⟨?_, ?_⟩
  · rw [hform, List.length_append, List.length_append, hlen]
    norm_num
  · rw [hform]
    have h10 : ([0x1B, 0x40, 0x1D, 0x76, 0x30, 0x00, 1, 0, 0, 0] : List ℕ).length
        = 10 := by norm_num
    rw [← h10, List.take_left]

/-- C10: for every mono raster (any width, any height, no bound) the encoder
emits — with no error possible — a well-formed frame whose 16-bit header
fields hold `ceil(W/8) % 65536` and `height % 65536`: the two byte pairs it
writes decode to exactly those values, and the row section length is
`ceil(W/8) * height`. -/
theorem header_fields_mod_65536 (width height : ℕ) (data : ℕ → ℕ) :
    ∃ rows : List ℕ, rows.length = bytesPerLine width * height ∧
      escposEncode width height data =
        [0x1B, 0x40, 0x1D, 0x76, 0x30, 0x00,
         bytesPerLine width % 256, bytesPerLine width / 256 % 256,
         height % 256, height / 256 % 256] ++ rows ++
        [0x1B, 0x64, 0x02, 0x1D, 0x56, 0x01] ∧
      bytesPerLine width % 256 + 256 * (bytesPerLine width / 256 % 256)
        = bytesPerLine width % 65536 ∧
      height % 256 + 256 * (height / 256 % 256) = height % 65536 := by
  refine ⟨rowData width height data, rowData_length width height data, ?_,
    by omega, by omega⟩
  simp [escposEncode]

/-- The `distribute` closure of `applyDithering` (src/src/App.js lines 91-97):
`if (x + dx >= 0 && x + dx < width && y + dy >= 0 && y + dy < height) {
const nIdx = ((y + dy) * width + (x + dx)) * 4;
const v = data[nIdx] + error * factor;
data[nIdx] = data[nIdx+1] = data[nIdx+2] = v; }`.
Note that `v` is seeded from the neighbor's RED channel `data[nIdx]` and then
overwrites all three color channels.  The decimal weight factors are exact
rationals here; the code computes in doubles rounded to Float32. -/
def distribute (width height : ℕ) (x y : ℕ) (error : ℚ) (dx dy : ℤ)
    (factor : ℚ) (d : ℕ → ℚ) : ℕ → ℚ :=
  if 0 ≤ (x : ℤ) + dx ∧ (x : ℤ) + dx < width ∧
     0 ≤ (y : ℤ) + dy ∧ (y : ℤ) + dy < height then
    let nIdx := ((((y : ℤ) + dy) * width + ((x : ℤ) + dx)) * 4).toNat
    let v := d nIdx + error * factor
    fun i => if i = nIdx ∨ i = nIdx + 1 ∨ i = nIdx + 2 then v else d i
  else d

/-- One pixel visit of the `applyDithering` double loop (src/src/App.js
lines 79-103): grayscale `data[idx]*0.299 + data[idx+1]*0.587 + data[idx+2]*0.114`
with upper clamp `if (gray > 255) gray = 255` (there is NO lower clamp at 0),
threshold `oldVal < 128 ? 0 : 255`, error `oldVal - newVal`, write of the
chosen value into the red channel only, then the four Floyd-Steinberg
distributions in source order with weights 7/16, 3/16, 5/16, 1/16. -/
def ditherStep (width height : ℕ) (y x : ℕ) (d : ℕ → ℚ) : ℕ → ℚ :=
  let idx := (y * width + x) * 4
  let gray0 := d idx * 0.299 + d (idx + 1) * 0.587 + d (idx + 2) * 0.114
  let gray := if gray0 > 255 then 255 else gray0
  let newVal : ℚ := if gray < 128 then 0 else 255
  let error := gray - newVal
  let d1 : ℕ → ℚ := fun i => if i = idx then newVal else d i
  let d2 := distribute width height x y error 1 0 (7 / 16) d1
  let d3 := distribute width height x y error (-1) 1 (3 / 16) d2
  let d4 := distribute width height x y error 0 1 (5 / 16) d3
  distribute width height x y error 1 1 (1 / 16) d4

/-- The raster scan of `applyDithering` (src/src/App.js lines 79-80):
`for (let y = 0; y < height; y++) for (let x = 0; x < width; x++)`. -/
def ditherScan (width height : ℕ) (d0 : ℕ → ℚ) : ℕ → ℚ :=
  (List.range height).foldl
    (fun d y => (List.range width).foldl
      (fun d x => ditherStep width height y x d) d) d0

/-- `applyDithering` (src/src/App.js lines 74-111) end to end: run the scan on
the rational copy of the RGBA bytes, then the final pass
`finalData[i] = data[i] < 128 ? 0 : 255`. -/
def applyDithering (width height : ℕ) (pix : ℕ → ℕ) : ℕ → ℕ :=
  fun i =>
    if ditherScan width height (fun j => (pix j : ℚ)) i < 128 then 0 else 255

/-- `convertToESCPOS` (src/src/App.js lines 113-148) on a raw RGBA raster:
dither, then encode the result. -/
def convertToESCPOS (width height : ℕ) (pix : ℕ → ℕ) : List ℕ :=
  escposEncode width height (applyDithering width height pix)

/-- Error receipt in the model of claim C2 as stated: the diffused amount is
added to the stored LUMINANCE value of the in-bounds neighbor. -/
def specDiffuse (width height : ℕ) (px py : ℤ) (amount : ℚ)
    (l : ℕ → ℚ) : ℕ → ℚ :=
  if 0 ≤ px ∧ px < width ∧ 0 ≤ py ∧ py < height then
    let n := (py * width + px).toNat
    fun q => if q = n then l n + amount else l q
  else l

/-- One pixel visit in the model of claim C2 as stated: threshold the current
(error-adjusted) luminance at 128, black iff < 128, error = old − chosen with
chosen in {0, 255}, then push the four weighted error shares to the in-bounds
not-yet-visited neighbors. -/
def specStep (width height : ℕ) (y x : ℕ)
    (s : (ℕ → ℚ) × (ℕ → Bool)) : (ℕ → ℚ) × (ℕ → Bool) :=
  let p := y * width + x
  let old := s.1 p
  let chosen : ℚ := if old < 128 then 0 else 255
  let e := old - chosen
  let l1 := specDiffuse width height ((x : ℤ) + 1) y (e * (7 / 16)) s.1
  let l2 := specDiffuse width height ((x : ℤ) - 1) ((y : ℤ) + 1) (e * (3 / 16)) l1
  let l3 := specDiffuse width height x ((y : ℤ) + 1) (e * (5 / 16)) l2
  let l4 := specDiffuse width height ((x : ℤ) + 1) ((y : ℤ) + 1) (e * (1 / 16)) l3
  (l4, fun q => if q = p then decide (old < 128) else s.2 q)

/-- The ditherer of claim C2 as stated, modelled from the claim's words: the
per-pixel luminance `0.299 R + 0.587 G + 0.114 B` clamped to [0, 255] is
computed first, then Floyd-Steinberg error diffusion runs in row-major scan
order on those luminance values; the result is the per-pixel black bit. -/
def ditherSpecC2 (width height : ℕ) (pix : ℕ → ℕ) : ℕ → Bool :=
  let lum0 : ℕ → ℚ := fun p =>
    max 0 (min 255 ((pix (p * 4) : ℚ) * 0.299 + (pix (p * 4 + 1) : ℚ) * 0.587 +
      (pix (p * 4 + 2) : ℚ) * 0.114))
  ((List.range height).foldl
    (fun s y => (List.range width).foldl
      (fun s x => specStep width height y x s) s)
    (lum0, fun _ => false)).2

/-- Claim C2 exactly as stated: the code's ditherer agrees, on every pixel of
every raster, with the luminance-based Floyd-Steinberg algorithm
`ditherSpecC2` described by the claim (black iff the dithered red channel is
0, the encoder's black test). -/
def claimC2 : Prop :=
  ∀ (width height : ℕ) (pix : ℕ → ℕ) (y x : ℕ), y < height → x < width →
    (applyDithering width height pix ((y * width + x) * 4) = 0 ↔
      ditherSpecC2 width height pix (y * width + x) = true)

/-- Error receipt in the amended model of C2, exactly what the code does: the
neighbor's new working value is its previous working value if it has already
received error, and otherwise its RED channel sample (not its luminance),
plus the diffused amount. -/
def amendDiffuse (width height : ℕ) (pix : ℕ → ℕ) (px py : ℤ) (amount : ℚ)
    (t : ℕ → Option ℚ) : ℕ → Option ℚ :=
  if 0 ≤ px ∧ px < width ∧ 0 ≤ py ∧ py < height then
    let n := (py * width + px).toNat
    fun q => if q = n then
      some ((match t n with
        | some v => v
        | none => (pix (n * 4) : ℚ)) + amount)
    else t q
  else t

/-- One pixel visit in the amended model of C2: the working value is the
stored value if the pixel has received error, else its original luminance;
it is clamped above at 255 (never below at 0); black iff the clamped value is
< 128; the error is the clamped value minus the chosen value; the four
weighted shares go to the in-bounds not-yet-visited neighbors via
`amendDiffuse`. -/
def amendStep (width height : ℕ) (pix : ℕ → ℕ) (y x : ℕ)
    (s : (ℕ → Option ℚ) × (ℕ → Bool)) : (ℕ → Option ℚ) × (ℕ → Bool) :=
  let p := y * width + x
  let v0 := match s.1 p with
    | some v => v
    | none => (pix (p * 4) : ℚ) * 0.299 + (pix (p * 4 + 1) : ℚ) * 0.587 +
        (pix (p * 4 + 2) : ℚ) * 0.114
  let v1 := if v0 > 255 then 255 else v0
  let chosen : ℚ := if v1 < 128 then 0 else 255
  let e := v1 - chosen
  let t1 := amendDiffuse width height pix ((x : ℤ) + 1) y (e * (7 / 16)) s.1
  let t2 := amendDiffuse width height pix ((x : ℤ) - 1) ((y : ℤ) + 1) (e * (3 / 16)) t1
  let t3 := amendDiffuse width height pix x ((y : ℤ) + 1) (e * (5 / 16)) t2
  let t4 := amendDiffuse width height pix ((x : ℤ) + 1) ((y : ℤ) + 1) (e * (1 / 16)) t3
  (t4, fun q => if q = p then decide (v1 < 128) else s.2 q)

/-- The amended-model ditherer: run `amendStep` over the raster scan starting
from no-error-received and all-white. -/
def amendScan (width height : ℕ) (pix : ℕ → ℕ) :
    (ℕ → Option ℚ) × (ℕ → Bool) :=
  (List.range height).foldl
    (fun s y => (List.range width).foldl
      (fun s x => amendStep width height pix y x s) s)
    (fun _ => none, fun _ => false)

/-- The concrete 2×1 RGBA raster refuting claim C2: pixel 0 is neutral gray
127 (luminance 127, generating error +127), pixel 1 is pure cyan
(red 0, green 255, blue 255, luminance 178.755). -/
def pixC2 : ℕ → ℕ := fun i => [127, 127, 127, 255, 0, 255, 255, 255].getD i 0

theorem foldl_congr_mem {α β : Type} (l : List β) (f g : α → β → α) (a : α)
    (h : ∀ b ∈ l, ∀ s, f s b = g s b) : l.foldl f a = l.foldl g a := by
  induction l generalizing a with
  | nil => rfl
  | cons c l ih =>
    rw [List.foldl_cons, List.foldl_cons, h c (List.mem_cons_self c l)]
    exact ih _ (fun b hb s => h b (List.mem_cons_of_mem c hb) s)

theorem foldl_nested_eq_linear {α : Type} (w h : ℕ) (f : ℕ → ℕ → α → α) (a : α) :
    (List.range h).foldl
      (fun s y => (List.range w).foldl (fun s x => f y x s) s) a
      = (List.range (w * h)).foldl (fun s n => f (n / w) (n % w) s) a := by
  induction h generalizing a with
  | zero => simp
  | succ h ih =>
    rw [List.range_succ, List.foldl_append, ih]
    rw [show w * (h + 1) = w * h + w from by ring, List.range_add, List.foldl_append]
    rw [List.foldl_map]
    simp only [List.foldl_cons, List.foldl_nil]
    apply foldl_congr_mem
    intro b hb s
    have hbw : b < w := List.mem_range.mp hb
    have hw : 0 < w := by omega
    have hdiv : (w * h + b) / w = h := by
      rw [Nat.add_comm, Nat.add_mul_div_left b h hw, Nat.div_eq_of_lt hbw]
      omega
    have hmod : (w * h + b) % w = b := by
      rw [Nat.add_comm, Nat.add_mul_mod_self_left, Nat.mod_eq_of_lt hbw]
    rw [hdiv, hmod]


/-- Simulation invariant between the flat RGBA buffer of `applyDithering`
after visiting the first `n` pixels of the scan and the structured amended
model: a visited pixel's red channel holds its chosen value; an unvisited
pixel that has received error holds the working value in all three color
channels; an untouched unvisited pixel still holds its original samples. -/
def Rel (pix : ℕ → ℕ) (n : ℕ) (d : ℕ → ℚ) (t : ℕ → Option ℚ)
    (bits : ℕ → Bool) : Prop :=
  ∀ p : ℕ,
    (p < n → d (p * 4) = (if bits p then 0 else 255)) ∧
    (n ≤ p →
      (∀ v, t p = some v →
        d (p * 4) = v ∧ d (p * 4 + 1) = v ∧ d (p * 4 + 2) = v) ∧
      (t p = none →
        d (p * 4) = (pix (p * 4) : ℚ) ∧ d (p * 4 + 1) = (pix (p * 4 + 1) : ℚ) ∧
        d (p * 4 + 2) = (pix (p * 4 + 2) : ℚ)))

theorem Rel.diffuse (w h : ℕ) (pix : ℕ → ℕ) (n : ℕ) (x y : ℕ) (e f : ℚ)
    (dx dy : ℤ) (px py : ℤ) (hpx : px = (x : ℤ) + dx) (hpy : py = (y : ℤ) + dy)
    (d : ℕ → ℚ) (t : ℕ → Option ℚ) (bits : ℕ → Bool)
    (hrel : Rel pix (n + 1) d t bits)
    (htarget : 0 ≤ px → px < w → 0 ≤ py → py < h →
      n + 1 ≤ (py * w + px).toNat) :
    Rel pix (n + 1) (distribute w h x y e dx dy f d)
      (amendDiffuse w h pix px py (e * f) t) bits := by
  subst hpx
  subst hpy
  by_cases hcond : 0 ≤ (x : ℤ) + dx ∧ (x : ℤ) + dx < w ∧
      0 ≤ (y : ℤ) + dy ∧ (y : ℤ) + dy < h
  · obtain ⟨hc1, hc2, hc3, hc4⟩ := hcond
    have hm := htarget hc1 hc2 hc3 hc4
    simp only [distribute, amendDiffuse, if_pos (show 0 ≤ (x : ℤ) + dx ∧
      (x : ℤ) + dx < w ∧ 0 ≤ (y : ℤ) + dy ∧ (y : ℤ) + dy < h from
      ⟨hc1, hc2, hc3, hc4⟩)]
    set K : ℤ := ((y : ℤ) + dy) * w + ((x : ℤ) + dx) with hKdef
    have hK0 : 0 ≤ K := by
      have hw0 : (0 : ℤ) ≤ (w : ℤ) := Int.natCast_nonneg w
      have := mul_nonneg hc3 hw0
      omega
    have hidx : (K * 4).toNat = K.toNat * 4 := by omega
    set m : ℕ := K.toNat with hmdef
    rw [hidx]
    have hB : d (m * 4) = (match t m with
        | some u => u
        | none => (pix (m * 4) : ℚ)) := by
      rcases ht : t m with _ | u
      · exact (((hrel m).2 hm).2 ht).1
      · exact (((hrel m).2 hm).1 u ht).1
    intro p
    refine ⟨?_, ?_⟩
    · intro hp
      have hpm : p ≠ m := by omega
      have hne : ¬(p * 4 = m * 4 ∨ p * 4 = m * 4 + 1 ∨ p * 4 = m * 4 + 2) := by
        omega
      simp only [if_neg hne]
      exact (hrel p).1 hp
    · intro hp
      by_cases hpm : p = m
      · subst hpm
        have h0 : m * 4 = m * 4 ∨ m * 4 = m * 4 + 1 ∨ m * 4 = m * 4 + 2 :=
          Or.inl rfl
        have h1 : m * 4 + 1 = m * 4 ∨ m * 4 + 1 = m * 4 + 1 ∨
            m * 4 + 1 = m * 4 + 2 := Or.inr (Or.inl rfl)
        have h2 : m * 4 + 2 = m * 4 ∨ m * 4 + 2 = m * 4 + 1 ∨
            m * 4 + 2 = m * 4 + 2 := Or.inr (Or.inr rfl)
        have htv : (fun q => if q = m then
            some ((match t m with
              | some u => u
              | none => (pix (m * 4) : ℚ)) + e * f)
            else t q) m = some ((match t m with
              | some u => u
              | none => (pix (m * 4) : ℚ)) + e * f) := by
          simp
        constructor
        · intro v hv
          rw [htv] at hv
          have hv' := Option.some.inj hv
          refine ⟨?_, ?_, ?_⟩
          · simp [hB, hv']
          · simp [hB, hv']
          · simp [hB, hv']
        · intro hnone
          rw [htv] at hnone
          exact Option.noConfusion hnone
      · have hne0 : ¬(p * 4 = m * 4 ∨ p * 4 = m * 4 + 1 ∨ p * 4 = m * 4 + 2) := by
          omega
        have hne1 : ¬(p * 4 + 1 = m * 4 ∨ p * 4 + 1 = m * 4 + 1 ∨
            p * 4 + 1 = m * 4 + 2) := by
          omega
        have hne2 : ¬(p * 4 + 2 = m * 4 ∨ p * 4 + 2 = m * 4 + 1 ∨
            p * 4 + 2 = m * 4 + 2) := by
          omega
        have htq : (fun q => if q = m then
            some ((match t m with
              | some u => u
              | none => (pix (m * 4) : ℚ)) + e * f)
            else t q) p = t p := by
          simp [hpm]
        constructor
        · intro v hv
          rw [htq] at hv
          simp only [if_neg hne0, if_neg hne1, if_neg hne2]
          exact ((hrel p).2 hp).1 v hv
        · intro hnone
          rw [htq] at hnone
          simp only [if_neg hne0, if_neg hne1, if_neg hne2]
          exact ((hrel p).2 hp).2 hnone
  · simp only [distribute, amendDiffuse, if_neg hcond]
    exact hrel

theorem Rel.visit (pix : ℕ → ℕ) (n : ℕ) (d : ℕ → ℚ) (t : ℕ → Option ℚ)
    (bits : ℕ → Bool) (V : ℚ) (hrel : Rel pix n d t bits) :
    Rel pix (n + 1)
      (fun i => if i = n * 4 then (if V < 128 then (0 : ℚ) else 255) else d i)
      t (fun q => if q = n then decide (V < 128) else bits q) := by
  intro p
  constructor
  · intro hp
    by_cases hpn : p = n
    · subst hpn
      by_cases hV : V < 128 <;> simp [hV]
    · have h4 : ¬(p * 4 = n * 4) := by omega
      simp only [if_neg h4, if_neg hpn]
      exact (hrel p).1 (by omega)
  · intro hp
    have hpn : p ≠ n := by omega
    have h0 : ¬(p * 4 = n * 4) := by omega
    have h1 : ¬(p * 4 + 1 = n * 4) := by omega
    have h2 : ¬(p * 4 + 2 = n * 4) := by omega
    constructor
    · intro v hv
      simp only [if_neg h0, if_neg h1, if_neg h2]
      exact ((hrel p).2 (by omega)).1 v hv
    · intro hnone
      simp only [if_neg h0, if_neg h1, if_neg h2]
      exact ((hrel p).2 (by omega)).2 hnone

theorem Rel.step (w h : ℕ) (pix : ℕ → ℕ) (n y x : ℕ)
    (hx : x < w) (_hy : y < h) (hn : y * w + x = n)
    (d : ℕ → ℚ) (t : ℕ → Option ℚ) (bits : ℕ → Bool)
    (hrel : Rel pix n d t bits) :
    Rel pix (n + 1) (ditherStep w h y x d)
      (amendStep w h pix y x (t, bits)).1 (amendStep w h pix y x (t, bits)).2 := by
  have hcast : (y : ℤ) * w + x = n := by exact_mod_cast hn
  have hw1 : 1 ≤ w := by omega
  have ht1 : 0 ≤ (x : ℤ) + 1 → (x : ℤ) + 1 < w → 0 ≤ (y : ℤ) → (y : ℤ) < h →
      n + 1 ≤ (((y : ℤ)) * w + ((x : ℤ) + 1)).toNat := by
    intro _ _ _ _
    have hk : ((y : ℤ)) * w + ((x : ℤ) + 1) = (n : ℤ) + 1 := by
      linear_combination hcast
    rw [hk]
    omega
  have ht2 : 0 ≤ (x : ℤ) - 1 → (x : ℤ) - 1 < w → 0 ≤ (y : ℤ) + 1 →
      (y : ℤ) + 1 < h → n + 1 ≤ (((y : ℤ) + 1) * w + ((x : ℤ) - 1)).toNat := by
    intro hxm _ _ _
    have hx1 : 1 ≤ x := by omega
    have hw2 : 2 ≤ w := by omega
    have hk : ((y : ℤ) + 1) * w + ((x : ℤ) - 1) = (n : ℤ) + w - 1 := by
      linear_combination hcast
    rw [hk]
    omega
  have ht3 : 0 ≤ (x : ℤ) → (x : ℤ) < w → 0 ≤ (y : ℤ) + 1 → (y : ℤ) + 1 < h →
      n + 1 ≤ (((y : ℤ) + 1) * w + (x : ℤ)).toNat := by
    intro _ _ _ _
    have hk : ((y : ℤ) + 1) * w + (x : ℤ) = (n : ℤ) + w := by
      linear_combination hcast
    rw [hk]
    omega
  have ht4 : 0 ≤ (x : ℤ) + 1 → (x : ℤ) + 1 < w → 0 ≤ (y : ℤ) + 1 →
      (y : ℤ) + 1 < h → n + 1 ≤ (((y : ℤ) + 1) * w + ((x : ℤ) + 1)).toNat := by
    intro _ _ _ _
    have hk : ((y : ℤ) + 1) * w + ((x : ℤ) + 1) = (n : ℤ) + w + 1 := by
      linear_combination hcast
    rw [hk]
    omega
  rcases ht : t n with _ | v
  · obtain ⟨e0, e1, e2⟩ := ((hrel n).2 le_rfl).2 ht
    simp only [ditherStep, amendStep, hn, ht, e0, e1, e2]
    refine Rel.diffuse w h pix n x y _ _ 1 1 ((x : ℤ) + 1) ((y : ℤ) + 1) rfl rfl _ _ _
      (Rel.diffuse w h pix n x y _ _ 0 1 (x : ℤ) ((y : ℤ) + 1) (by ring) rfl _ _ _
        (Rel.diffuse w h pix n x y _ _ (-1) 1 ((x : ℤ) - 1) ((y : ℤ) + 1) (by ring) rfl _ _ _
          (Rel.diffuse w h pix n x y _ _ 1 0 ((x : ℤ) + 1) (y : ℤ) rfl (by ring) _ _ _
            (Rel.visit pix n d t bits _ hrel) ht1) ht2) ht3) ht4
  · obtain ⟨e0, e1, e2⟩ := ((hrel n).2 le_rfl).1 v ht
    have hgv : d (n * 4) * (0.299 : ℚ) + d (n * 4 + 1) * 0.587 + d (n * 4 + 2) * 0.114 = v := by
      rw [e0, e1, e2]
      ring
    simp only [ditherStep, amendStep, hn, ht]
    rw [← hgv]
    refine Rel.diffuse w h pix n x y _ _ 1 1 ((x : ℤ) + 1) ((y : ℤ) + 1) rfl rfl _ _ _
      (Rel.diffuse w h pix n x y _ _ 0 1 (x : ℤ) ((y : ℤ) + 1) (by ring) rfl _ _ _
        (Rel.diffuse w h pix n x y _ _ (-1) 1 ((x : ℤ) - 1) ((y : ℤ) + 1) (by ring) rfl _ _ _
          (Rel.diffuse w h pix n x y _ _ 1 0 ((x : ℤ) + 1) (y : ℤ) rfl (by ring) _ _ _
            (Rel.visit pix n d t bits _ hrel) ht1) ht2) ht3) ht4

theorem rel_scan (w h : ℕ) (pix : ℕ → ℕ) (n : ℕ) (hn : n ≤ w * h) :
    Rel pix n
      ((List.range n).foldl (fun d m => ditherStep w h (m / w) (m % w) d)
        (fun j => (pix j : ℚ)))
      ((List.range n).foldl (fun s m => amendStep w h pix (m / w) (m % w) s)
        (fun _ => none, fun _ => false)).1
      ((List.range n).foldl (fun s m => amendStep w h pix (m / w) (m % w) s)
        (fun _ => none, fun _ => false)).2 := by
  induction n with
  | zero =>
    intro p
    refine ⟨fun hp => absurd hp (Nat.not_lt_zero p), fun _ => ⟨?_, ?_⟩⟩
    · intro v hv
      simp at hv
    · intro _
      exact ⟨rfl, rfl, rfl⟩
  | succ n ih =>
    have hn' : n ≤ w * h := by omega
    have hw : 0 < w := by
      rcases Nat.eq_zero_or_pos w with hw0 | hw
      · exfalso
        rw [hw0, Nat.zero_mul] at hn
        omega
      · exact hw
    rw [List.range_succ, List.foldl_append, List.foldl_append]
    simp only [List.foldl_cons, List.foldl_nil]
    have hxw : n % w < w := Nat.mod_lt n hw
    have hyh : n / w < h := Nat.div_lt_of_lt_mul (by omega)
    have hnx : (n / w) * w + n % w = n := by
      calc (n / w) * w + n % w = w * (n / w) + n % w := by ring
        _ = n := Nat.div_add_mod n w
    exact Rel.step w h pix n (n / w) (n % w) hxw hyh hnx _ _ _ (ih hn')

/-- C2 (amended): the code's ditherer agrees, on every pixel of every raster,
with the amended structured model: row-major Floyd-Steinberg with threshold
128 and weights 7/16, 3/16, 5/16, 1/16 over in-bounds not-yet-visited
neighbors, EXCEPT that (i) an error-receiving pixel's working value is seeded
from its red channel (its green and blue samples are overwritten and its
luminance is lost), and (ii) the working value is clamped above at 255 only
(never below at 0) before thresholding and error computation. -/
theorem dithering_red_channel_seed (w h : ℕ) (pix : ℕ → ℕ) (y x : ℕ)
    (hy : y < h) (hx : x < w) :
    (applyDithering w h pix ((y * w + x) * 4) = 0 ↔
      (amendScan w h pix).2 (y * w + x) = true) := by
  have hp : y * w + x < w * h := by
    have h1 : y * w + x < (y + 1) * w := by
      calc y * w + x < y * w + w := by omega
        _ = (y + 1) * w := by ring
    have h2 : (y + 1) * w ≤ h * w := Nat.mul_le_mul_right w hy
    calc y * w + x < (y + 1) * w := h1
      _ ≤ h * w := h2
      _ = w * h := Nat.mul_comm h w
  have hrel := rel_scan w h pix (w * h) le_rfl
  have hcode : ditherScan w h (fun j => (pix j : ℚ))
      = (List.range (w * h)).foldl
          (fun d m => ditherStep w h (m / w) (m % w) d) (fun j => (pix j : ℚ)) :=
    foldl_nested_eq_linear w h (fun y x d => ditherStep w h y x d) _
  have hamend : amendScan w h pix
      = (List.range (w * h)).foldl
          (fun s m => amendStep w h pix (m / w) (m % w) s)
          (fun _ => none, fun _ => false) :=
    foldl_nested_eq_linear w h (fun y x s => amendStep w h pix y x s) _
  have hd := (hrel (y * w + x)).1 hp
  rw [← hcode] at hd
  rw [← hamend] at hd
  rw [show applyDithering w h pix ((y * w + x) * 4)
      = (if ditherScan w h (fun j => (pix j : ℚ)) ((y * w + x) * 4) < 128
        then (0 : ℕ) else 255) from rfl, hd]
  cases hbit : (amendScan w h pix).2 (y * w + x)
  · norm_num
  · norm_num

/-- Witness for C2 (amended) at a concrete 1×1 all-black raster: the code
blackens its pixel exactly when the amended model does. -/
theorem dithering_red_channel_seed_witness :
    applyDithering 1 1 (fun _ => 0) ((0 * 1 + 0) * 4) = 0 ↔
      (amendScan 1 1 (fun _ => 0)).2 (0 * 1 + 0) = true :=
  dithering_red_channel_seed 1 1 (fun _ => 0) 0 0 (by decide) (by decide)

set_option maxHeartbeats 1600000 in
/-- Counterexample to C2 as stated: on the concrete 2×1 raster `pixC2` (pixel
0 neutral gray 127, pixel 1 pure cyan with red 0), the code prints pixel 1
black: the diffused error seeds from the red channel 0 giving working value
55.5625 < 128.  Claim C2's luminance algorithm leaves it white: luminance
178.755 plus error 55.5625 is 234.3175 ≥ 128.  So claim C2 is false. -/
theorem dithering_counterexample : ¬ claimC2 := by
  intro hcl
  have h := hcl 2 1 pixC2 0 1 (by norm_num) (by norm_num)
  have h1 : applyDithering 2 1 pixC2 ((0 * 2 + 1) * 4) = 0 := by
    norm_num [applyDithering, ditherScan, ditherStep, distribute, pixC2,
      List.range_succ, show Int.toNat 4 = 4 from rfl]
  have h2 : ditherSpecC2 2 1 pixC2 (0 * 2 + 1) = false := by
    norm_num [ditherSpecC2, specStep, specDiffuse, pixC2,
      List.range_succ, show Int.toNat 1 = 1 from rfl]
  have h3 := h.mp h1
  rw [h2] at h3
  exact Bool.false_ne_true h3

/-- C6: the dither-then-encode pipeline is a pure function: evaluating it
twice on the same raster gives syntactically the same byte stream, and
pointwise-equal rasters give byte-identical streams — there is no hidden
state or randomness in the model, which is total and deterministic by
construction. -/
theorem pipeline_deterministic :
    (∀ (width height : ℕ) (pix : ℕ → ℕ),
      convertToESCPOS width height pix = convertToESCPOS width height pix) ∧
    (∀ (width height : ℕ) (pix pix' : ℕ → ℕ), (∀ i, pix i = pix' i) →
      convertToESCPOS width height pix = convertToESCPOS width height pix') := by
  refine ⟨fun _ _ _ => rfl, fun width height pix pix' hpp => ?_⟩
  rw [funext hpp]

/-- Witness for C6: two syntactically different but pointwise-equal rasters
encode to the same bytes. -/
theorem pipeline_deterministic_witness :
    convertToESCPOS 1 1 (fun _ => 0) = convertToESCPOS 1 1 (fun i => 0 * i) :=
  pipeline_deterministic.2 1 1 (fun _ => 0) (fun i => 0 * i)
    (fun i => by simp)


/-- A transport event of a print session: one GATT characteristic write of a
chunk payload, or an awaited timer delay in milliseconds. -/
inductive TransportEvent where
  | write (bytes : List ℕ)
  | delay (ms : ℕ)
deriving DecidableEq

/-- Event trace of the PRIMARY `printImage` transport loop (src/src/App.js
lines 66-71): each iteration awaits `this.characteristic.writeValue(chunk)`
and nothing else — despite the comment `Smaller chunks + delay = smoother
printing`, no delay is awaited anywhere in the loop. -/
def primarySendEvents (frame : List ℕ) : List TransportEvent :=
  (toChunks frame).map TransportEvent.write

/-- Event trace of the LEGACY banded `printImage` (src/src/App.js lines
1569-1575): each iteration awaits the write and then
`new Promise(resolve => setTimeout(resolve, 50))`. -/
def legacySendEvents (frame : List ℕ) : List TransportEvent :=
  (toChunks frame).flatMap
    (fun c => [TransportEvent.write c, TransportEvent.delay 50])

/-- Pacing property of claim C7: no chunk write is immediately followed by
another chunk write — some delay separates consecutive writes. -/
def paced (evs : List TransportEvent) : Prop :=
  ∀ (k : ℕ) (b b' : List ℕ), evs[k]? = some (TransportEvent.write b) →
    evs[k + 1]? = some (TransportEvent.write b') → False

theorem paced_interleave (L : List (List ℕ)) :
    paced (L.flatMap (fun c => [TransportEvent.write c, TransportEvent.delay 50])) := by
  induction L with
  | nil =>
    intro k b b' h1 _
    simp at h1
  | cons c L ih =>
    intro k b b' h1 h2
    match k with
    | 0 =>
      simp [List.flatMap_cons] at h2
    | 1 =>
      simp [List.flatMap_cons] at h1
    | (k + 2) =>
      simp only [List.flatMap_cons, List.cons_append, List.nil_append,
        List.getElem?_cons_succ] at h1 h2
      exact ih k b b' h1 h2

/-- The legacy banded variant does pace its writes: its trace alternates
write, delay, write, delay, … -/
theorem legacySendEvents_paced (frame : List ℕ) :
    paced (legacySendEvents frame) :=
  paced_interleave (toChunks frame)

set_option maxRecDepth 8000 in
/-- C7 evaluated against the code: (i) the primary `printImage` emits ONLY
write events — its trace contains no delay at all; (ii) at the concrete
failing input, a 513-byte frame, the trace is two back-to-back writes with
nothing between them, so the claimed inter-chunk pacing delay does not exist
in the shipped raster-command path (the legacy banded variant alone paces its
writes, see `legacySendEvents_paced`). -/
theorem primary_send_unpaced :
    (∀ (frame : List ℕ) (e : TransportEvent), e ∈ primarySendEvents frame →
      ∃ b, e = TransportEvent.write b) ∧
    primarySendEvents (List.replicate 513 0) =
      [TransportEvent.write (List.replicate 512 0), TransportEvent.write [0]] := by
  constructor
  · intro frame e he
    simp only [primarySendEvents, List.mem_map] at he
    obtain ⟨c, _, rfl⟩ := he
    exact ⟨c, rfl⟩
  · decide

/-- Witness for C7's trace characterization at a one-chunk frame. -/
theorem primary_send_unpaced_witness :
    ∃ b, TransportEvent.write [7] = TransportEvent.write b :=
  primary_send_unpaced.1 [7] (TransportEvent.write [7]) (by decide)

/-- Result and write trace of the primary `printImage` (src/src/App.js lines
36-71), with the connection predicate `this.device && this.device.gatt.connected`
abstracted as a boolean and the image pipeline reduced to the encoded frame:
`if (!this.device || !this.device.gatt.connected) throw new Error('Printer
not connected')` runs before anything else, so a not-connected channel throws
and the chunk-write loop never starts; otherwise every chunk is written. -/
def printImageRun (connected : Bool) (frame : List ℕ) :
    Except String Unit × List (List ℕ) :=
  if !connected then (Except.error "Printer not connected", [])
  else (Except.ok (), toChunks frame)

/-- C8: when the channel reports not connected at the moment `printImage` is
called, the call fails immediately with the `Printer not connected` error and
the write trace is empty — no byte reaches the device. -/
theorem send_not_connected (connected : Bool) (frame : List ℕ)
    (h : connected = false) :
    (printImageRun connected frame).1 = Except.error "Printer not connected" ∧
    (printImageRun connected frame).2 = [] := by
  subst h
  exact ⟨rfl, rfl⟩

/-- Witness for C8 at a concrete frame. -/
theorem send_not_connected_witness :
    (printImageRun false [1, 2, 3]).1 = Except.error "Printer not connected" ∧
    (printImageRun false [1, 2, 3]).2 = [] :=
  send_not_connected false [1, 2, 3] rfl

/-- Failure modes of the rasterizer stage of `printImage`: the DOM
IndexSizeError thrown by `getImageData` on an empty rectangle, and the
`InvalidImage` error named by the specification (which the code never
produces). -/
inductive RasterError where
  | indexSizeError
  | invalidImage
deriving DecidableEq

/-- The canvas-size computation of the primary `printImage` rasterizer
(src/src/App.js lines 49-53): `printerWidth = 384`,
`aspectRatio = img.height / img.width`,
`canvas.height = Math.floor(printerWidth * aspectRatio)`.  Exact rational
arithmetic stands in for the JS doubles. -/
def resampleDims (w h : ℕ) : ℕ × ℕ :=
  (384, (⌊(384 : ℚ) * ((h : ℚ) / (w : ℚ))⌋).toNat)

/-- The rasterizer stage of `printImage` (src/src/App.js lines 40-62) as a
result: the canvas is sized by `resampleDims`, then
`ctx.getImageData(0, 0, canvas.width, canvas.height)` throws a DOM
IndexSizeError when the computed height is 0 (getImageData rejects an empty
source rectangle).  A zero source width gives `aspectRatio = Infinity`, and
`canvas.height = Infinity` is converted to 0 by the unsigned-long canvas
attribute, ending in the same IndexSizeError; the rational model's junk
value 0 for division by zero agrees with that outcome.  Decode failures
(`img.onerror`) reject with an untyped error event before this stage and are
not modelled. -/
def resample (w h : ℕ) : Except RasterError (ℕ × ℕ) :=
  if (resampleDims w h).2 = 0 then Except.error RasterError.indexSizeError
  else Except.ok (resampleDims w h)

/-- The rasterizer contract of claim C9, modelled from the claim's words:
fail with InvalidImage exactly when a source dimension is zero, otherwise
succeed with width 384 and height `floor(384 * sourceHeight / sourceWidth)`. -/
def resampleSpecC9 (w h : ℕ) : Except RasterError (ℕ × ℕ) :=
  if w = 0 ∨ h = 0 then Except.error RasterError.invalidImage
  else Except.ok (384, 384 * h / w)

/-- Claim C9 exactly as stated: the code's rasterizer implements the
`resampleSpecC9` contract. -/
def claimC9 : Prop := ∀ w h : ℕ, resample w h = resampleSpecC9 w h

theorem resampleDims_eq (w h : ℕ) (_hw : 0 < w) :
    resampleDims w h = (384, 384 * h / w) := by
  unfold resampleDims
  congr 1
  have h1 : (384 : ℚ) * ((h : ℚ) / (w : ℚ))
      = ((384 * h : ℕ) : ℚ) / ((w : ℕ) : ℚ) := by
    push_cast
    ring
  rw [h1, Int.floor_toNat, Rat.natFloor_natCast_div_natCast]

/-- Counterexample to C9 as stated: at the concrete source size 385×1 (both
dimensions nonzero, decode fine) the claim promises success with height
`floor(384 * 1 / 385) = 0`, but the code computes a zero-height canvas and
`getImageData` throws a DOM IndexSizeError, so the rasterizer fails — and
not with `InvalidImage`. -/
theorem resample_counterexample : ¬ claimC9 := by
  intro hcl
  have h := hcl 385 1
  have h1 : resample 385 1 = Except.error RasterError.indexSizeError := by
    rw [resample, resampleDims_eq 385 1 (by norm_num)]
    norm_num
  have h2 : resampleSpecC9 385 1 = Except.ok (384, 384 * 1 / 385) := by
    rw [resampleSpecC9, if_neg (by norm_num)]
  rw [h1, h2] at h
  exact Except.noConfusion h

/-- C9 (amended): the rasterizer preserves the aspect ratio — output width
384 and height `floor(384 * sourceHeight / sourceWidth)` — whenever that
height is nonzero; there is no zero-dimension check and no `InvalidImage`
error: when the computed height is zero (including zero source dimensions)
the stage fails with the DOM IndexSizeError raised by `getImageData`, and a
decode failure surfaces as an untyped rejection. -/
theorem resample_no_zero_check (w h : ℕ) (hw : 0 < w) :
    (384 * h / w = 0 → resample w h = Except.error RasterError.indexSizeError) ∧
    (384 * h / w ≠ 0 → resample w h = Except.ok (384, 384 * h / w)) := by
  have hd := resampleDims_eq w h hw
  constructor
  · intro hz
    rw [resample, hd]
    simp [hz]
  · intro hz
    rw [resample, hd]
    simp [hz]

/-- Witness for C9 (amended) at the concrete source size 384×500: the
rasterizer succeeds with dimensions 384×500. -/
theorem resample_no_zero_check_witness :
    resample 384 500 = Except.ok (384, 384 * 500 / 384) :=
  (resample_no_zero_check 384 500 (by norm_num)).2 (by norm_num)

end ThermaSnaps
